import Mathlib

/-!
Verification of the watchlist e-mail report generator (`email_system.py`).

The program's string processing is modelled at the codepoint level: a Python
string is embedded as the `List Nat` of its Unicode codepoints (obtained from a
Lean `String` via `strCodes`).  Character classes (`\d`, `[A-Za-z]`, `\s`,
`str.lower`, `str.upper`) are modelled for the ASCII range, which is the range
the program's regular expressions test.  External effects (HTTP requests, the
zhipuai SDK, SMTP) are modelled as explicit oracle parameters describing the
outcome of each call, so every function of the source becomes a total Lean
function of its inputs and its oracles.
-/

namespace EmailSystem

/-! ## Character classes (ASCII model of Python's `\s`, `\d`, `[A-Za-z]`, case) -/

/-- Python `\s` (ASCII): space 32, tab 9, LF 10, CR 13, VT 11, FF 12. -/
def pyIsSpaceN (n : Nat) : Bool :=
  decide (n = 32 ∨ n = 9 ∨ n = 10 ∨ n = 13 ∨ n = 11 ∨ n = 12)

/-- the class `[\s\-_\.]` removed by `re.sub` in `infer_market_and_format`:
whitespace, `-` 45, `_` 95, `.` 46. -/
def isSepN (n : Nat) : Bool :=
  pyIsSpaceN n || decide (n = 45 ∨ n = 95 ∨ n = 46)

/-- Python `\d` (ASCII): `0`..`9` = 48..57. -/
def isDigitN (n : Nat) : Bool := decide (48 ≤ n ∧ n ≤ 57)

/-- regex class `[A-Za-z]`: 65..90 or 97..122. -/
def isAlphaN (n : Nat) : Bool := decide ((65 ≤ n ∧ n ≤ 90) ∨ (97 ≤ n ∧ n ≤ 122))

/-- regex class `[0-9A-Za-z]`. -/
def isAlnumN (n : Nat) : Bool := isDigitN n || isAlphaN n

/-- Python `\w` (ASCII): alphanumeric or `_` 95. -/
def isWordN (n : Nat) : Bool := isAlnumN n || decide (n = 95)

/-- an ASCII upper-case letter `A`..`Z` = 65..90. -/
def isUpperN (n : Nat) : Bool := decide (65 ≤ n ∧ n ≤ 90)

/-- an ASCII lower-case letter `a`..`z` = 97..122. -/
def isLowerN (n : Nat) : Bool := decide (97 ≤ n ∧ n ≤ 122)

/-- Python `str.lower` on one codepoint (ASCII range). -/
def toLowerN (n : Nat) : Nat := if 65 ≤ n ∧ n ≤ 90 then n + 32 else n

/-- Python `str.upper` on one codepoint (ASCII range). -/
def toUpperN (n : Nat) : Nat := if 97 ≤ n ∧ n ≤ 122 then n - 32 else n

/-- codepoints of a Lean string literal, used to write concrete inputs. -/
def strCodes (s : String) : List Nat := s.data.map Char.toNat

/-- back from codepoints to a `String` (every codepoint our functions produce
comes from a valid character, possibly case-shifted inside ASCII). -/
def codesStr (l : List Nat) : String := String.mk (l.map Char.ofNat)

/-! ## Python string primitives -/

/-- Python `str.strip()`: drop whitespace from both ends. -/
def pyStrip (l : List Nat) : List Nat :=
  ((l.dropWhile pyIsSpaceN).reverse.dropWhile pyIsSpaceN).reverse

/-- the `s_clean` of `infer_market_and_format`:
`re.sub(r'[\s\-_\.]', '', raw.strip().lower())`. -/
def sCleanOf (l : List Nat) : List Nat :=
  ((pyStrip l).map toLowerN).filter (fun n => !isSepN n)

/-- Python `s.lstrip("0")`: drop leading `0` (48) codepoints. -/
def lstrip0 (s : List Nat) : List Nat := s.dropWhile (fun n => decide (n = 48))

/-- the idiom `s.lstrip("0") or s`: strip leading zeros but keep the original
when everything was stripped. -/
def stripOr (s : List Nat) : List Nat := if lstrip0 s = [] then s else lstrip0 s

/-! ## `infer_market_and_format` (email_system.py lines 146-198) -/

/-- regex `0*\d+` anchored on the whole remainder: a non-empty digit string. -/
def matchDigits1 (s : List Nat) : Bool := !s.isEmpty && s.all isDigitN

/-- regex `^(sh|sz)(0*\d+)$` (`s` 115, `h` 104, `z` 122): on success, the digit
group. -/
def matchShSz (s : List Nat) : Option (List Nat) :=
  match s with
  | a :: b :: rest =>
      if (a = 115 ∧ (b = 104 ∨ b = 122)) ∧ matchDigits1 rest = true then some rest else none
  | _ => none

/-- regex `^(hk)(0*\d+)$` (`h` 104, `k` 107): on success, the digit group. -/
def matchHkPre (s : List Nat) : Option (List Nat) :=
  match s with
  | a :: b :: rest =>
      if (a = 104 ∧ b = 107) ∧ matchDigits1 rest = true then some rest else none
  | _ => none

/-- regex `^(\d{1,6})hk$`: 1..6 digits followed by exactly `hk`; on success,
the digit group.  Backtracking is not needed: since `h` is not a digit, the
digit group can only be everything before the final two characters. -/
def matchHkSuf (s : List Nat) : Option (List Nat) :=
  if 3 ≤ s.length ∧ s.drop (s.length - 2) = [104, 107] ∧
     matchDigits1 (s.take (s.length - 2)) = true ∧ s.length - 2 ≤ 6 then
    some (s.take (s.length - 2))
  else none

/-- Python `s.startswith` on a two-character pattern. -/
def startsWith2 (p q : Nat) : List Nat → Bool
  | a :: b :: _ => decide (a = p) && decide (b = q)
  | _ => false

/-- the final digit-extraction fallback of `infer_market_and_format`:
`digits = re.sub(r'\D', '', s_clean)`, routed by digit count, else the cleaned
string upper-cased with market `US`. -/
def fallbackDigits (s : List Nat) : List Nat × String :=
  let d := s.filter isDigitN
  if d = [] then (s.map toUpperN, "US")
  else if d.length = 6 then (d, "A")
  else if d.length = 4 ∨ d.length = 5 then (d, "HK")
  else (d, "A")

/-- the body of `infer_market_and_format(raw_code)`: infer the market (`"A"`, `"HK"`,
`"US"`) and format the code, mirroring the source's rule order. -/
def inferCore (raw : List Nat) : List Nat × String :=
  if raw = [] then ([], "A")
  else
    let s := sCleanOf raw
    match matchShSz s with
    | some d => (stripOr d, "A")
    | none =>
      match matchHkPre s with
      | some d => (stripOr d, "HK")
      | none =>
        if s.length = 6 ∧ s.all isDigitN then (stripOr s, "A")
        else if (s.length = 4 ∨ s.length = 5) ∧ s.all isDigitN then (stripOr s, "HK")
        else
          match matchHkSuf s with
          | some d => (stripOr d, "HK")
          | none =>
            if startsWith2 117 115 s then ((s.drop 2).map toUpperN, "US")
            else if startsWith2 103 98 s then ((s.drop 2).map toUpperN, "US")
            else if s.all isAlphaN ∧ 1 ≤ s.length ∧ s.length ≤ 6 then (s.map toUpperN, "US")
            else
              match s with
              | a :: _ =>
                if isAlphaN a then ((s.takeWhile isAlphaN).map toUpperN, "US")
                else fallbackDigits s
              | [] => fallbackDigits s

/-- the function `infer_market_and_format` at the `String` interface. -/
def infer_market_and_format (s : String) : String × String :=
  (codesStr (inferCore (strCodes s)).1, (inferCore (strCodes s)).2)

/-! ## `_extract_code_from_name` (lines 200-216)

Each branch embeds one `re.search` of the source as a leftmost-match scan.
-/

/-- an opening bracket of `[\(\（\[]`: `(` 40, `（` 65288, `[` 91. -/
def isOpenB (n : Nat) : Bool := decide (n = 40 ∨ n = 65288 ∨ n = 91)

/-- a closing bracket of `[\)\）\]]`: `)` 41, `）` 65289, `]` 93. -/
def isCloseB (n : Nat) : Bool := decide (n = 41 ∨ n = 65289 ∨ n = 93)

/-- test on the head of a remainder: first character closes a bracket. -/
def headCloseB : List Nat → Bool
  | c :: _ => isCloseB c
  | [] => false

/-- test on the head of a remainder: first character is `.` 46, `-` 45,
`/` 47 or `_` 95 (the separator class of the third search). -/
def headSep4 : List Nat → Bool
  | c :: _ => decide (c = 46 ∨ c = 45 ∨ c = 47 ∨ c = 95)
  | [] => false

/-- test on the head of a remainder: first character is not a word character
(so `\b` holds there), or the remainder is empty (end of string). -/
def headNonWord : List Nat → Bool
  | c :: _ => !isWordN c
  | [] => true

/-- attempt of `\s*([0-9A-Za-z]{1,6})\s*[\)\）\]]` just after an opening
bracket.  The greedy 1..6-token can only succeed on the whole alphanumeric
run, since a shorter capture would be followed by an alphanumeric character
where the pattern needs spaces or a closing bracket. -/
def bracketAt (s : List Nat) : Option (List Nat) :=
  let s1 := s.dropWhile pyIsSpaceN
  let run := s1.takeWhile isAlnumN
  if 1 ≤ run.length ∧ run.length ≤ 6 ∧
     headCloseB ((s1.drop run.length).dropWhile pyIsSpaceN) = true then
    some run
  else none

/-- the first search of `_extract_code_from_name`: a bracketed alphanumeric token, scanned leftmost. -/
def searchBracket : List Nat → Option (List Nat)
  | [] => none
  | c :: rest =>
    if isOpenB c then
      match bracketAt rest with
      | some r => some r
      | none => searchBracket rest
    else searchBracket rest

/-- attempt of `([0-9A-Za-z]{4,6})(?:\s*$)` at the start of the suffix `s`:
an alphanumeric run of length 4..6 followed only by whitespace to the end. -/
def trailTokenAt (s : List Nat) : Option (List Nat) :=
  let run := s.takeWhile isAlnumN
  if 4 ≤ run.length ∧ run.length ≤ 6 ∧ (s.drop run.length).all pyIsSpaceN then
    some run
  else none

/-- the second search of `_extract_code_from_name`: a trailing alphanumeric token, scanned leftmost. -/
def searchTrail : List Nat → Option (List Nat)
  | [] => none
  | c :: rest =>
    match trailTokenAt (c :: rest) with
    | some r => some r
    | none => searchTrail rest

/-- attempt of the third search's pattern (digits, spaces, separator class of
dot, dash, slash, underscore, then an optional market suffix) at the start of
`s`: a digit run of length 4..6, then optional spaces, then a separator
`.` 46, `-` 45, `/` 47 or `_` 95 (the trailing optional market group always
matches and is not captured). -/
def sepTokenAt (s : List Nat) : Option (List Nat) :=
  let run := s.takeWhile isDigitN
  if 4 ≤ run.length ∧ run.length ≤ 6 ∧
     headSep4 ((s.drop run.length).dropWhile pyIsSpaceN) = true then
    some run
  else none

/-- the third `re.search` of `_extract_code_from_name` (digit run before a
dot, dash, slash or underscore separator), scanned leftmost. -/
def searchSep : List Nat → Option (List Nat)
  | [] => none
  | c :: rest =>
    match sepTokenAt (c :: rest) with
    | some r => some r
    | none => searchSep rest

/-- attempt of `\b([A-Za-z]{1,6})\b` at the start of `s` (the caller ensures
the boundary before `s`): a letter run of length 1..6 whose following
character is not a word character. -/
def wordTokenAt (s : List Nat) : Option (List Nat) :=
  let run := s.takeWhile isAlphaN
  if 1 ≤ run.length ∧ run.length ≤ 6 ∧ headNonWord (s.drop run.length) = true then
    some run
  else none

/-- the fourth search of `_extract_code_from_name`, a word-bounded letter token, scanned leftmost; the boolean argument records
whether the previous character was a word character (no `\b` there). -/
def searchWord : Bool → List Nat → Option (List Nat)
  | _, [] => none
  | prevWord, c :: rest =>
    if prevWord = false ∧ isAlphaN c = true then
      match wordTokenAt (c :: rest) with
      | some r => some r
      | none => searchWord (isWordN c) rest
    else searchWord (isWordN c) rest

/-- the function `_extract_code_from_name(text)`: four regex searches tried in order. -/
def extract_code_from_name (text : List Nat) : Option (List Nat) :=
  if text = [] then none
  else
    let t := pyStrip text
    match searchBracket t with
    | some r => some r
    | none =>
      match searchTrail t with
      | some r => some r
      | none =>
        match searchSep t with
        | some r => some r
        | none =>
          match searchWord false t with
          | some r => if r.any isDigitN then none else some r
          | none => none

/-! ## `resolve_code_by_name` (lines 265-300)

The network search `_try_stock_scanner_search` probes several endpoints and
response shapes; the codes it would hand to `infer_market_and_format`
(`res[key]` for the recognized keys, then the nested-dict keys) are abstracted
as the oracle list `search`, tried in order.
-/

/-- the repeated idiom `c, m = infer_market_and_format(x); if c: return (c, m)`. -/
def tryInfer (d : List Nat) : Option (List Nat × String) :=
  if (inferCore d).1 = [] then none else some (inferCore d)

/-- the direct and fallback attempts of `resolve_code_by_name`:
`x = _extract_code_from_name(name); if x: (c, m) = infer(x); if c: return`. -/
def tryExtractInfer (name : List Nat) : Option (List Nat × String) :=
  match extract_code_from_name name with
  | some d => if d = [] then none else tryInfer d
  | none => none

/-- the two key-probing loops over the search response: each candidate value
is formatted and returned when its code is non-empty. -/
def tryCands : List (List Nat) → Option (List Nat × String)
  | [] => none
  | v :: rest =>
    match tryInfer v with
    | some r => some r
    | none => tryCands rest

/-- the computation `letters = re.findall(...)` over letter runs of length at most six: the first match is the
first maximal letter run, truncated to 6 characters. -/
def firstLetters : List Nat → Option (List Nat)
  | [] => none
  | c :: rest =>
    if isAlphaN c then some (((c :: rest).takeWhile isAlphaN).take 6)
    else firstLetters rest

/-- the last resort of `resolve_code_by_name`: `if letters: ... if c: return`. -/
def letterFallback (name : List Nat) : Option (List Nat × String) :=
  match firstLetters name with
  | some l => tryInfer l
  | none => none

/-- the function `resolve_code_by_name(name)`: `none` is the `(None, None)` outcome
(`Unresolved`).  `search` is the oracle for `_try_stock_scanner_search`
(its body is wrapped in `try/except: pass`, so a partial or failed search is
a shorter or empty candidate list). -/
def resolve_code_by_name (search : List (List Nat)) (name : List Nat) :
    Option (List Nat × String) :=
  if name = [] then none
  else
    match tryExtractInfer name with
    | some r => some r
    | none =>
      match tryCands search with
      | some r => some r
      | none =>
        match tryExtractInfer name with
        | some r => some r
        | none => letterFallback name

/-! ## Python values and the `stock-scanner-mcp` HTTP client (lines 118-143)

A JSON payload is modelled by `PyVal` (`None`, strings, dicts — the shapes the
program inspects).  The outcome of the one `requests.get` inside
`_call_stock_scanner` is the oracle `ScanResp`: a `ConnectionError`, any other
exception, or a response with a status code and a body on which `resp.json()`
either parses (`.json v`) or raises so that `resp.text` is used (`.raw t`).
-/

inductive PyVal where
  | pnone : PyVal
  | pstr : String → PyVal
  | pdict : List (String × PyVal) → PyVal

/-- Python truthiness of the values the program tests: `None` and the empty
string and the empty dict are falsy. -/
def pyTruthy : PyVal → Bool
  | .pnone => false
  | .pstr s => !(s == "")
  | .pdict fs => !fs.isEmpty

/-- Python `repr`, as interpolated when a dict is converted with `str`. -/
def pyRepr : PyVal → String
  | .pnone => "None"
  | .pstr s => "'" ++ s ++ "'"
  | .pdict fs =>
    "\x7b" ++ String.intercalate ", "
      (fs.attach.map (fun x => "'" ++ x.1.1 ++ "': " ++ pyRepr x.1.2)) ++ "\x7d"
decreasing_by
  have h1 := List.sizeOf_lt_of_mem x.2
  rcases x with ⟨⟨k, v⟩, hx⟩
  simp at h1 ⊢
  omega

/-- Python `str` of the values `get_ai_analysis_for_stock` may return. -/
def pyStr : PyVal → String
  | .pstr s => s
  | v => pyRepr v

/-- dict lookup `res[key]` guarded by `key in res` (dict keys are unique, so
the first binding is the binding). -/
def lookupField (fs : List (String × PyVal)) (k : String) : Option PyVal :=
  match fs with
  | [] => none
  | (k0, v) :: rest => if k0 = k then some v else lookupField rest k

/-- the body handed back by the HTTP layer: `resp.json()` parsed to `v`, or
raised so that `resp.text` is returned. -/
inductive ScanBody where
  | json : PyVal → ScanBody
  | raw : String → ScanBody

/-- outcome of the `requests.get` inside `_call_stock_scanner`. -/
inductive ScanResp where
  | connError : ScanResp
  | exnError : ScanResp
  | ok : Nat → ScanBody → ScanResp

/-- the function `_call_stock_scanner(path, params, timeout)`: `none` is Python `None`.
`base` is the module's `STOCK_SCANNER_URL`.  A JSON `null` body parses to the
`None` object; it is modelled as `some .pnone`, which every caller treats
exactly like `none` because each first tests truthiness.  No exception
escapes: the `try/except` ladder is total by construction. -/
def call_stock_scanner (base : String) (resp : ScanResp) : Option PyVal :=
  if base = "" then none
  else
    match resp with
    | .connError => none
    | .exnError => none
    | .ok status body =>
      if status ≠ 200 then none
      else
        match body with
        | .json v => some v
        | .raw t => some (.pstr t)

/-- the key-probing loop of `get_ai_analysis_for_stock`:
`for key in (...): if key in res and res[key]: ...`. -/
def firstTruthyKey (fs : List (String × PyVal)) : List String → Option PyVal
  | [] => none
  | k :: rest =>
    match lookupField fs k with
    | some v => if pyTruthy v then some v else firstTruthyKey fs rest
    | none => firstTruthyKey fs rest

/-- the function `get_ai_analysis_for_stock(stock_code, market_type)` (lines 465-479):
primary-tier analysis; `none` is Python `None` (tier failure). -/
def get_ai_analysis_for_stock (base stock_code market_type : String)
    (resp : ScanResp) : Option PyVal :=
  if stock_code = "" then none
  else
    match call_stock_scanner base resp with
    | none => none
    | some res =>
      if !pyTruthy res then none
      else
        match res with
        | .pdict fs =>
          match firstTruthyKey fs ["ai_analysis", "ai", "content", "html", "data", "result"] with
          | some v =>
            match v with
            | .pdict inner =>
              match lookupField inner "content" with
              | some c => some c
              | none => some v
            | _ => some v
          | none => some (.pstr (pyStr res))
        | _ => some (.pstr (pyStr res))

/-! ## `generate_ai_content_for_watchlist` (lines 482-503)

One watchlist row as normalized by `get_user_watchlist`; the zhipuai fallback
`_call_zhipu` is an oracle from the prompt to its returned text (`none` is
Python `None`; SDK internals are outside the modelled core).
-/

structure WatchItem where
  name : String
  raw_code : String
  code : String
  market : String
deriving DecidableEq

/-- Python `x or y` on strings. -/
def pyOr (a b : String) : String := if a = "" then b else a

/-- Python truthiness of an optional string (`None` and `""` falsy). -/
def truthyOS : Option String → Bool
  | none => false
  | some s => !(s == "")

/-- Python truthiness of an optional `PyVal`. -/
def truthyOV : Option PyVal → Bool
  | none => false
  | some v => pyTruthy v

/-- one iteration of the loop of `generate_ai_content_for_watchlist`: the
entry appended for watchlist row `s` (every branch appends exactly one). -/
def genEntry (base : String) (scan : String → String → ScanResp)
    (zhipu : String → Option String) (s : WatchItem) : String :=
  let code := s.code
  let market := pyOr s.market "A"
  let name := pyOr s.name (pyOr code (pyOr s.raw_code "未知"))
  if code = "" then
    "<p><strong>" ++ name ++ "</strong>：无代码，无法获取 AI 分析。</p>"
  else
    let ai_text := get_ai_analysis_for_stock base code market (scan code market)
    if truthyOV ai_text then
      "<h3>" ++ name ++ " (" ++ code ++ " - " ++ market ++ ")</h3><div>" ++
        pyStr (ai_text.getD .pnone) ++ "</div>"
    else
      let prompt := "请对股票 " ++ name ++ " (" ++ code ++ ", 市场 " ++ market ++
        ") 做简短分析，包含趋势与操作建议（中文，约100字）。"
      let z := zhipu prompt
      if truthyOS z then
        "<h3>" ++ name ++ " (" ++ code ++ " - " ++ market ++ ")</h3><div>" ++
          z.getD "" ++ "</div>"
      else
        "<p><strong>" ++ name ++ " (" ++ code ++ ")</strong>：无法获取 AI 分析，使用回退简述。</p>"

/-- Python `sep.join(parts)`. -/
def pyJoin (sep : String) : List String → String
  | [] => ""
  | [a] => a
  | a :: b :: rest => a ++ sep ++ pyJoin sep (b :: rest)

/-- the `parts` list built by `generate_ai_content_for_watchlist`: the loop
runs over `(watchlist or [])[:8]` and appends exactly one entry per row. -/
def watchlistParts (base : String) (scan : String → String → ScanResp)
    (zhipu : String → Option String) (watchlist : List WatchItem) : List String :=
  (watchlist.take 8).map (genEntry base scan zhipu)

/-- the function `generate_ai_content_for_watchlist(watchlist)`. -/
def generate_ai_content_for_watchlist (base : String)
    (scan : String → String → ScanResp) (zhipu : String → Option String)
    (watchlist : List WatchItem) : String :=
  let parts := watchlistParts base scan zhipu watchlist
  if parts = [] then "<p>暂无可用自选股分析。</p>"
  else pyJoin "\n" parts

/-! ## `send_email` (lines 657-682)

The SMTP session performs, inside `try`, the four effectful steps
`smtplib.SMTP(...)`, `starttls()`, `login(...)`, `send_message(msg)`; each may
raise an `SMTPAuthenticationError`, another `SMTPException`, or any other
exception.  All three `except` arms return `False`; success returns `True`.
The oracle records each step's outcome; the first failing step aborts the
rest, exactly as an exception would.
-/

inductive PyExn where
  | smtpAuth : PyExn
  | smtpOther : PyExn
  | otherExn : PyExn
deriving DecidableEq

structure SmtpEnv where
  connect : Except PyExn Unit
  starttls : Except PyExn Unit
  login : Except PyExn Unit
  send : Except PyExn Unit

/-- the function `send_email(to_email, subject, html_content)`: total at its interface —
the result type is `Bool`, every exception of the session is mapped to
`false` by the `except` ladder. -/
def send_email (env : SmtpEnv) (to_email subject html_content : String) : Bool :=
  match env.connect with
  | .error _ => false
  | .ok _ =>
    match env.starttls with
    | .error _ => false
    | .ok _ =>
      match env.login with
      | .error _ => false
      | .ok _ =>
        match env.send with
        | .error _ => false
        | .ok _ => true

/-! ## Claim-level data -/

/-- canonical shapes on which re-normalization is the identity: a six-digit
market-`A` code with no leading zero, a four/five-digit market-`HK` code with
no leading zero, or a market-`US` ticker of upper-case letters whose
lower-cased form begins with neither `us` nor `gb` (those two-letter heads are
consumed by the foreign-market rule on re-normalization). -/
def idemShape (sym : List Nat) (mkt : String) : Prop :=
  (mkt = "A" ∧ sym.length = 6 ∧ sym.all isDigitN = true ∧ lstrip0 sym = sym) ∨
  (mkt = "HK" ∧ (sym.length = 4 ∨ sym.length = 5) ∧ sym.all isDigitN = true ∧
    lstrip0 sym = sym) ∨
  (mkt = "US" ∧ sym ≠ [] ∧ sym.all isUpperN = true ∧
    startsWith2 117 115 (sym.map toLowerN) = false ∧
    startsWith2 103 98 (sym.map toLowerN) = false)

instance (sym : List Nat) (mkt : String) : Decidable (idemShape sym mkt) := by
  unfold idemShape
  infer_instance

/-- a batch of nine identical resolvable watchlist rows, one more than the
`[:8]` window of `generate_ai_content_for_watchlist`. -/
def wlNine : List WatchItem :=
  List.replicate 9 ⟨"贵州茅台", "sh600519", "600519", "A"⟩

/-- a two-row batch used to instantiate the all-sources-fail scenario. -/
def wlTwo : List WatchItem :=
  [⟨"贵州茅台", "sh600519", "600519", "A"⟩, ⟨"腾讯", "", "", ""⟩]

/-- an oracle under which every primary-source call fails with a
`ConnectionError`. -/
def scanDown : String → String → ScanResp := fun _ _ => ScanResp.connError

/-- an oracle under which every zhipuai fallback call returns `None`. -/
def zhipuDown : String → Option String := fun _ => none

/-- success test of one SMTP step's outcome. -/
def okB : Except PyExn Unit → Bool
  | .ok _ => true
  | .error _ => false

/-! ## Helper lemmas on lists and character classes -/

theorem dropWhile_eq_self_of_forall {p : Nat → Bool} {l : List Nat}
    (h : ∀ a ∈ l, p a = false) : l.dropWhile p = l := by
  cases l with
  | nil => rfl
  | cons a t => simp [List.dropWhile_cons, h a (by simp)]

theorem map_eq_self_of_forall {f : Nat → Nat} {l : List Nat}
    (h : ∀ a ∈ l, f a = a) : l.map f = l := by
  induction l with
  | nil => rfl
  | cons a t ih =>
    simp only [List.map_cons, h a (by simp), List.cons.injEq, true_and]
    exact ih fun b hb => h b (by simp [hb])

theorem filter_eq_self_of_forall {p : Nat → Bool} {l : List Nat}
    (h : ∀ a ∈ l, p a = true) : l.filter p = l := by
  induction l with
  | nil => rfl
  | cons a t ih =>
    simp only [List.filter_cons, h a (by simp), if_true, List.cons.injEq, true_and]
    exact ih fun b hb => h b (by simp [hb])

theorem takeWhile_eq_self_of_forall {p : Nat → Bool} {l : List Nat}
    (h : ∀ a ∈ l, p a = true) : l.takeWhile p = l := by
  induction l with
  | nil => rfl
  | cons a t ih =>
    simp only [List.takeWhile_cons, h a (by simp), if_true, List.cons.injEq, true_and]
    exact ih fun b hb => h b (by simp [hb])

theorem pyStrip_eq_self_of_forall {l : List Nat}
    (h : ∀ a ∈ l, pyIsSpaceN a = false) : pyStrip l = l := by
  unfold pyStrip
  rw [dropWhile_eq_self_of_forall h,
    dropWhile_eq_self_of_forall fun a ha => h a (List.mem_reverse.mp ha),
    List.reverse_reverse]

theorem digit_facts {n : Nat} (h : isDigitN n = true) :
    pyIsSpaceN n = false ∧ isSepN n = false ∧ toLowerN n = n ∧ isAlphaN n = false := by
  simp only [isDigitN, decide_eq_true_eq] at h
  refine ⟨?_, ?_, ?_, ?_⟩
  · simp only [pyIsSpaceN, decide_eq_false_iff_not]; omega
  · simp only [isSepN, pyIsSpaceN, Bool.or_eq_false_iff, decide_eq_false_iff_not]
    constructor <;> omega
  · unfold toLowerN; split <;> omega
  · simp only [isAlphaN, decide_eq_false_iff_not]; omega

theorem upper_facts {n : Nat} (h : isUpperN n = true) :
    pyIsSpaceN n = false ∧ isSepN (toLowerN n) = false ∧ isLowerN (toLowerN n) = true ∧
      toUpperN (toLowerN n) = n := by
  simp only [isUpperN, decide_eq_true_eq] at h
  refine ⟨?_, ?_, ?_, ?_⟩
  · simp only [pyIsSpaceN, decide_eq_false_iff_not]; omega
  · simp only [isSepN, pyIsSpaceN, Bool.or_eq_false_iff, decide_eq_false_iff_not, toLowerN]
    constructor <;> (split <;> omega)
  · simp only [isLowerN, toLowerN, decide_eq_true_eq]; split <;> omega
  · unfold toLowerN toUpperN; split <;> (split <;> omega)

theorem lower_facts {n : Nat} (h : isLowerN n = true) :
    isDigitN n = false ∧ isAlphaN n = true := by
  simp only [isLowerN, decide_eq_true_eq] at h
  constructor
  · simp only [isDigitN, decide_eq_false_iff_not]; omega
  · simp only [isAlphaN, decide_eq_true_eq]; omega

theorem sClean_of_digits {l : List Nat} (h : ∀ n ∈ l, isDigitN n = true) :
    sCleanOf l = l := by
  unfold sCleanOf
  rw [pyStrip_eq_self_of_forall fun a ha => (digit_facts (h a ha)).1,
    map_eq_self_of_forall fun a ha => (digit_facts (h a ha)).2.2.1,
    filter_eq_self_of_forall fun a ha => by simp [(digit_facts (h a ha)).2.1]]

theorem matchDigits1_eq_false_of_head_nondigit {a : Nat} {t : List Nat}
    (ha : isDigitN a = false) : matchDigits1 (a :: t) = false := by
  simp [matchDigits1, ha]

theorem matchShSz_eq_none_of_head_digit {a : Nat} (ha : isDigitN a = true)
    (t : List Nat) : matchShSz (a :: t) = none := by
  simp only [isDigitN, decide_eq_true_eq] at ha
  cases t with
  | nil => rfl
  | cons b r =>
    simp only [matchShSz]
    rw [if_neg]
    rintro ⟨⟨h1, _⟩, _⟩
    omega

theorem matchHkPre_eq_none_of_head_digit {a : Nat} (ha : isDigitN a = true)
    (t : List Nat) : matchHkPre (a :: t) = none := by
  simp only [isDigitN, decide_eq_true_eq] at ha
  cases t with
  | nil => rfl
  | cons b r =>
    simp only [matchHkPre]
    rw [if_neg]
    rintro ⟨⟨h1, _⟩, _⟩
    omega

theorem matchHkSuf_eq_none_of_all_digits {s : List Nat}
    (h : ∀ n ∈ s, isDigitN n = true) : matchHkSuf s = none := by
  unfold matchHkSuf
  rw [if_neg]
  rintro ⟨h3, hdrop, -, -⟩
  have h104 : (104 : Nat) ∈ s.drop (s.length - 2) := by rw [hdrop]; simp
  have := h 104 (List.mem_of_mem_drop h104)
  simp [isDigitN] at this

theorem startsWith2_eq_false_of_head {p q a : Nat} {t : List Nat}
    (ha : a ≠ p) : startsWith2 p q (a :: t) = false := by
  cases t with
  | nil => rfl
  | cons b r => simp [startsWith2, ha]

/-- evaluation of `infer_market_and_format` on a non-empty all-digit input: market `A` for
six digits, `HK` for four or five, `A` otherwise, the code stripped of its
leading zeros (kept whole if all zeros) in the 4..6-digit cases and returned
verbatim otherwise. -/
theorem inferCore_digits {s : List Nat} (hall : ∀ n ∈ s, isDigitN n = true)
    (hne : s ≠ []) :
    inferCore s =
      (if s.length = 6 then (stripOr s, "A")
       else if s.length = 4 ∨ s.length = 5 then (stripOr s, "HK")
       else (s, "A")) := by
  obtain ⟨a, t, rfl⟩ : ∃ a t, s = a :: t := by
    cases s with
    | nil => exact absurd rfl hne
    | cons a t => exact ⟨a, t, rfl⟩
  have ha := hall a (by simp)
  have hclean := sClean_of_digits hall
  have halpha : isAlphaN a = false := (digit_facts ha).2.2.2
  unfold inferCore
  rw [if_neg hne]
  simp only [hclean, matchShSz_eq_none_of_head_digit ha,
    matchHkPre_eq_none_of_head_digit ha, matchHkSuf_eq_none_of_all_digits hall]
  have hall' : (a :: t).all isDigitN = true := List.all_eq_true.mpr hall
  by_cases h6 : (a :: t).length = 6
  · simp [h6, hall']
  · by_cases h4 : (a :: t).length = 4
    · simp [h6, h4, hall']
    · by_cases h5 : (a :: t).length = 5
      · simp [h6, h4, h5, hall']
      · have h45 : ¬((a :: t).length = 4 ∨ (a :: t).length = 5) := by
          rintro (h | h) <;> [exact h4 h; exact h5 h]
        have ha117 : a ≠ 117 := by simp [isDigitN] at ha; omega
        have ha103 : a ≠ 103 := by simp [isDigitN] at ha; omega
        have hnotalpha : ¬((a :: t).all isAlphaN = true ∧ 1 ≤ (a :: t).length ∧
            (a :: t).length ≤ 6) := by
          rintro ⟨hal, -, -⟩
          rw [List.all_eq_true] at hal
          have := hal a (by simp)
          rw [halpha] at this
          exact Bool.false_ne_true this
        simp only [h6, if_false, h45, startsWith2_eq_false_of_head ha117,
          startsWith2_eq_false_of_head ha103, hnotalpha, halpha, Bool.false_eq_true,
          if_false, fallbackDigits]
        have hfilter : (a :: t).filter isDigitN = a :: t :=
          filter_eq_self_of_forall hall
        simp only [List.length_cons] at h6 h4 h5 ⊢
        simp [hfilter, h6, h4, h5]

theorem sClean_of_upper {l : List Nat} (h : ∀ n ∈ l, isUpperN n = true) :
    sCleanOf l = l.map toLowerN := by
  unfold sCleanOf
  rw [pyStrip_eq_self_of_forall fun a ha => (upper_facts (h a ha)).1]
  apply filter_eq_self_of_forall
  intro a ha
  obtain ⟨m, hm, rfl⟩ := List.mem_map.mp ha
  simp [(upper_facts (h m hm)).2.1]

theorem lower_of_mem_map_lower {l : List Nat} (h : ∀ n ∈ l, isUpperN n = true) :
    ∀ n ∈ l.map toLowerN, isLowerN n = true := by
  intro a ha
  obtain ⟨m, hm, rfl⟩ := List.mem_map.mp ha
  exact (upper_facts (h m hm)).2.2.1

theorem matchShSz_eq_none_of_all_lower {s : List Nat}
    (h : ∀ n ∈ s, isLowerN n = true) : matchShSz s = none := by
  cases s with
  | nil => rfl
  | cons a t =>
    cases t with
    | nil => rfl
    | cons b r =>
      have hr : matchDigits1 r = false := by
        cases r with
        | nil => rfl
        | cons c u =>
          exact matchDigits1_eq_false_of_head_nondigit
            (lower_facts (h c (by simp))).1
      simp [matchShSz, hr]

theorem matchHkPre_eq_none_of_all_lower {s : List Nat}
    (h : ∀ n ∈ s, isLowerN n = true) : matchHkPre s = none := by
  cases s with
  | nil => rfl
  | cons a t =>
    cases t with
    | nil => rfl
    | cons b r =>
      have hr : matchDigits1 r = false := by
        cases r with
        | nil => rfl
        | cons c u =>
          exact matchDigits1_eq_false_of_head_nondigit
            (lower_facts (h c (by simp))).1
      simp [matchHkPre, hr]

theorem matchHkSuf_eq_none_of_all_lower {s : List Nat}
    (h : ∀ n ∈ s, isLowerN n = true) : matchHkSuf s = none := by
  unfold matchHkSuf
  rw [if_neg]
  rintro ⟨h3, -, hdig, -⟩
  cases ht : s.take (s.length - 2) with
  | nil =>
    have h0 : (s.take (s.length - 2)).length = 0 := by rw [ht]; rfl
    rw [List.length_take] at h0
    omega
  | cons c u =>
    have hc : c ∈ s := List.mem_of_mem_take (ht ▸ (by simp : c ∈ c :: u))
    rw [ht, matchDigits1_eq_false_of_head_nondigit (lower_facts (h c hc)).1] at hdig
    exact Bool.false_ne_true hdig

theorem map_upper_lower {l : List Nat} (h : ∀ n ∈ l, isUpperN n = true) :
    (l.map toLowerN).map toUpperN = l := by
  rw [List.map_map]
  exact map_eq_self_of_forall fun a ha => (upper_facts (h a ha)).2.2.2

/-- evaluation of `infer_market_and_format` on a non-empty all-upper-case-letter input whose
lower-cased form begins with neither `us` nor `gb`: the input is returned
unchanged with market `US` (it lands in the pure-letter rule when at most six
letters long, and in the letter-run rule otherwise). -/
theorem inferCore_upper {s : List Nat} (h : ∀ n ∈ s, isUpperN n = true)
    (hne : s ≠ [])
    (hus : startsWith2 117 115 (s.map toLowerN) = false)
    (hgb : startsWith2 103 98 (s.map toLowerN) = false) :
    inferCore s = (s, "US") := by
  have hlow := lower_of_mem_map_lower h
  have hclean : sCleanOf s = s.map toLowerN := sClean_of_upper h
  obtain ⟨a, t, rfl⟩ : ∃ a t, s = a :: t := by
    cases s with
    | nil => exact absurd rfl hne
    | cons a t => exact ⟨a, t, rfl⟩
  have hnd : ((a :: t).map toLowerN).all isDigitN = false := by
    simp only [List.map_cons, List.all_cons, Bool.and_eq_false_iff]
    exact Or.inl (lower_facts (hlow (toLowerN a) (by simp))).1
  have hal : ((a :: t).map toLowerN).all isAlphaN = true :=
    List.all_eq_true.mpr fun n hn => (lower_facts (hlow n hn)).2
  have halist : ∀ n ∈ (a :: t).map toLowerN, isAlphaN n = true :=
    List.all_eq_true.mp hal
  unfold inferCore
  rw [if_neg hne]
  simp only [hclean, matchShSz_eq_none_of_all_lower hlow,
    matchHkPre_eq_none_of_all_lower hlow, matchHkSuf_eq_none_of_all_lower hlow,
    hus, hgb, hnd, Bool.false_eq_true, and_false, if_false, Bool.false_eq_true,
    if_false]
  by_cases h6 : ((a :: t).map toLowerN).length ≤ 6
  · rw [if_pos ⟨hal, by simp, h6⟩, map_upper_lower h]
  · rw [if_neg (by rintro ⟨-, -, hc⟩; exact h6 hc)]
    simp only [List.map_cons]
    rw [if_pos (halist (toLowerN a) (by simp))]
    rw [← List.map_cons toLowerN a t,
      takeWhile_eq_self_of_forall halist, map_upper_lower h]

theorem stripOr_eq_self {s : List Nat} (h : lstrip0 s = s) : stripOr s = s := by
  unfold stripOr
  rw [h]
  split <;> rfl

/-! ## Claim C3 -/

/-- C3 counterexample: normalizing `"My Favorite (0005)"` through name
extraction does not yield `("0005", "HK")` — the code strips the leading
zeros of the bracket-extracted token. -/
theorem claim3_cex :
    resolve_code_by_name [] (strCodes "My Favorite (0005)") ≠
      some (strCodes "0005", "HK") := by decide

/-- C3 (amended): the inputs `"sh600519"`, `"00700"`, `"AAPL"` normalize to
`("600519","A")`, `("700","HK")`, `("AAPL","US")` as claimed, while
`"My Favorite (0005)"` (via name extraction) yields `("5","HK")` — market `HK`
as claimed but with the leading zeros of `0005` stripped. -/
theorem claim3_examples :
    inferCore (strCodes "sh600519") = (strCodes "600519", "A") ∧
    inferCore (strCodes "00700") = (strCodes "700", "HK") ∧
    inferCore (strCodes "AAPL") = (strCodes "AAPL", "US") ∧
    resolve_code_by_name [] (strCodes "My Favorite (0005)") =
      some (strCodes "5", "HK") := by decide

/-! ## Claim C4 -/

/-- C4 counterexample: normalization is not idempotent — `"00700"` succeeds
with the canonical pair `("700", "HK")`, but re-normalizing the symbol
`"700"` yields market `"A"` (the three-digit string falls through every `HK`
rule into the digit-count fallback). -/
theorem claim4_cex :
    inferCore (strCodes "00700") = (strCodes "700", "HK") ∧
    inferCore (strCodes "700") ≠ (strCodes "700", "HK") := by decide

/-- C4 (amended): re-normalization is the identity on every canonical pair
whose symbol still matches its market's own rule — a six-digit `A` code with
no leading zero, a four/five-digit `HK` code with no leading zero, or an
upper-case `US` ticker not beginning with `us`/`gb` — but not in general
(leading-zero stripping can shorten a code out of its market's digit-count
class, as the counterexample shows). -/
theorem claim4_idem_on_shape (raw sym : List Nat) (mkt : String)
    (hnorm : inferCore raw = (sym, mkt)) (hshape : idemShape sym mkt) :
    inferCore sym = (sym, mkt) := by
  clear hnorm
  rcases hshape with ⟨rfl, h6, hd, h0⟩ | ⟨rfl, h45, hd, h0⟩ | ⟨rfl, hne, hu, hus, hgb⟩
  · have hne : sym ≠ [] := by intro h; rw [h] at h6; simp at h6
    rw [inferCore_digits (List.all_eq_true.mp hd) hne, if_pos h6, stripOr_eq_self h0]
  · have hne : sym ≠ [] := by
      intro h
      rw [h] at h45
      simp at h45
    have h6 : sym.length ≠ 6 := by omega
    rw [inferCore_digits (List.all_eq_true.mp hd) hne, if_neg h6, if_pos h45,
      stripOr_eq_self h0]
  · exact inferCore_upper (List.all_eq_true.mp hu) hne hus hgb

/-- C4 witness: the hypotheses of `claim4_idem_on_shape` hold for the
normalization of `"sh600519"`, and the conclusion follows from the theorem. -/
theorem claim4_witness :
    inferCore (strCodes "sh600519") = (strCodes "600519", "A") ∧
    idemShape (strCodes "600519") "A" ∧
    inferCore (strCodes "600519") = (strCodes "600519", "A") :=
  ⟨by decide, by decide,
    claim4_idem_on_shape (strCodes "sh600519") (strCodes "600519") "A"
      (by decide) (by decide)⟩

/-! ## Claim C5 -/

theorem tryInfer_ne_nil {d c : List Nat} {m : String}
    (h : tryInfer d = some (c, m)) : c ≠ [] := by
  unfold tryInfer at h
  by_cases hc : (inferCore d).1 = []
  · rw [if_pos hc] at h
    cases h
  · rw [if_neg hc] at h
    have h2 := Option.some.inj h
    intro hnil
    rw [h2] at hc
    exact hc hnil

theorem tryExtractInfer_ne_nil {name c : List Nat} {m : String}
    (h : tryExtractInfer name = some (c, m)) : c ≠ [] := by
  unfold tryExtractInfer at h
  cases hx : extract_code_from_name name with
  | none =>
    rw [hx] at h
    exact Option.noConfusion h
  | some d =>
    rw [hx] at h
    have h' : (if d = [] then none else tryInfer d) = some (c, m) := h
    by_cases hd : d = []
    · rw [if_pos hd] at h'
      exact Option.noConfusion h'
    · rw [if_neg hd] at h'
      exact tryInfer_ne_nil h'

theorem tryCands_ne_nil {l : List (List Nat)} {c : List Nat} {m : String}
    (h : tryCands l = some (c, m)) : c ≠ [] := by
  induction l with
  | nil => cases h
  | cons v rest ih =>
    unfold tryCands at h
    cases hv : tryInfer v with
    | none => rw [hv] at h; exact ih h
    | some r =>
      rw [hv] at h
      have h2 := Option.some.inj h
      rw [h2] at hv
      exact tryInfer_ne_nil hv

theorem letterFallback_ne_nil {name c : List Nat} {m : String}
    (h : letterFallback name = some (c, m)) : c ≠ [] := by
  unfold letterFallback at h
  cases hx : firstLetters name with
  | none => rw [hx] at h; cases h
  | some l =>
    rw [hx] at h
    exact tryInfer_ne_nil h

/-- C5: whenever `resolve_code_by_name` succeeds (returns a canonical pair
rather than the `(None, None)` outcome `Unresolved`), the returned code is
non-empty — every `return` of a pair is guarded by `if code:`. -/
theorem claim5_resolved_nonempty (search : List (List Nat)) (name c : List Nat)
    (m : String) (h : resolve_code_by_name search name = some (c, m)) :
    c ≠ [] := by
  unfold resolve_code_by_name at h
  by_cases hn : name = []
  · rw [if_pos hn] at h
    exact Option.noConfusion h
  · rw [if_neg hn] at h
    cases h1 : tryExtractInfer name with
    | some r =>
      rw [h1] at h
      have h2 : some r = some (c, m) := h
      rw [Option.some.inj h2] at h1
      exact tryExtractInfer_ne_nil h1
    | none =>
      rw [h1] at h
      cases h2 : tryCands search with
      | some r =>
        rw [h2] at h
        have h3 : some r = some (c, m) := h
        rw [Option.some.inj h3] at h2
        exact tryCands_ne_nil h2
      | none =>
        rw [h2] at h
        exact letterFallback_ne_nil h

/-- C5 witness: instantiated on the resolvable name `"My Favorite (0005)"`. -/
theorem claim5_witness : strCodes "5" ≠ ([] : List Nat) :=
  claim5_resolved_nonempty [] (strCodes "My Favorite (0005)") (strCodes "5")
    "HK" (by decide)

/-! ## Claim C6 -/

/-- C6: a pure six-digit input normalizes to market `A` with leading zeros
stripped except when the stripped result would be empty (`stripOr`), and a
pure four- or five-digit input normalizes to market `HK`. -/
theorem claim6_digit_routing (s : List Nat) (hd : s.all isDigitN = true) :
    (s.length = 6 → inferCore s = (stripOr s, "A")) ∧
    ((s.length = 4 ∨ s.length = 5) → (inferCore s).2 = "HK") := by
  have hd' := List.all_eq_true.mp hd
  constructor
  · intro h6
    have hne : s ≠ [] := by intro h; rw [h] at h6; simp at h6
    rw [inferCore_digits hd' hne, if_pos h6]
  · intro h45
    have hne : s ≠ [] := by
      intro h
      rw [h] at h45
      simp at h45
    have h6 : s.length ≠ 6 := by omega
    rw [inferCore_digits hd' hne, if_neg h6, if_pos h45]

/-- C6 witness: instantiated on `"000001"` (six digits, all-zero head kept by
the strip-or-keep idiom up to the last digit) and `"00700"` (five digits). -/
theorem claim6_witness :
    (strCodes "000001").all isDigitN = true ∧
    inferCore (strCodes "000001") = (strCodes "1", "A") ∧
    (inferCore (strCodes "00700")).2 = "HK" := by
  refine ⟨by decide, ?_, ?_⟩
  · rw [(claim6_digit_routing (strCodes "000001") (by decide)).1 (by decide)]
    decide
  · exact (claim6_digit_routing (strCodes "00700") (by decide)).2 (by decide)

/-! ## Claim C9 -/

theorem fallbackDigits_market (s : List Nat) :
    (fallbackDigits s).2 = "A" ∨ (fallbackDigits s).2 = "HK" ∨
      (fallbackDigits s).2 = "US" := by
  unfold fallbackDigits
  dsimp only
  repeat' split
  all_goals simp

theorem inferCore_market_mem (raw : List Nat) :
    (inferCore raw).2 = "A" ∨ (inferCore raw).2 = "HK" ∨
      (inferCore raw).2 = "US" := by
  unfold inferCore
  by_cases h0 : raw = []
  · simp [h0]
  · rw [if_neg h0]
    dsimp only
    generalize sCleanOf raw = s
    cases hm1 : matchShSz s with
    | some d => simp
    | none =>
    cases hm2 : matchHkPre s with
    | some d => simp
    | none =>
    by_cases h6 : s.length = 6 ∧ s.all isDigitN = true
    · rw [if_pos h6]
      simp
    · rw [if_neg h6]
      by_cases h45 : (s.length = 4 ∨ s.length = 5) ∧ s.all isDigitN = true
      · rw [if_pos h45]
        simp
      · rw [if_neg h45]
        cases hm3 : matchHkSuf s with
        | some d => simp
        | none =>
        by_cases hus : startsWith2 117 115 s = true
        · rw [if_pos hus]
          simp
        · rw [if_neg hus]
          by_cases hgb : startsWith2 103 98 s = true
          · rw [if_pos hgb]
            simp
          · rw [if_neg hgb]
            by_cases hal : s.all isAlphaN = true ∧ 1 ≤ s.length ∧ s.length ≤ 6
            · rw [if_pos hal]
              simp
            · rw [if_neg hal]
              cases s with
              | nil => exact fallbackDigits_market []
              | cons a t =>
                by_cases ha : isAlphaN a = true
                · simp [ha]
                · simp only [ha, Bool.false_eq_true, if_false]
                  exact fallbackDigits_market (a :: t)

/-- C9: for every input string, the market produced by normalization is one
of the three enumerated values `"A"`, `"HK"`, `"US"` — every `return` of
`infer_market_and_format` carries one of these literals. -/
theorem claim9_market_enum (s : String) :
    (infer_market_and_format s).2 = "A" ∨ (infer_market_and_format s).2 = "HK" ∨
      (infer_market_and_format s).2 = "US" :=
  inferCore_market_mem (strCodes s)

/-! ## Claim C8 -/

theorem call_scanner_conn_none (base : String) :
    call_stock_scanner base ScanResp.connError = none := by
  unfold call_stock_scanner
  split <;> rfl

theorem call_scanner_exn_none (base : String) :
    call_stock_scanner base ScanResp.exnError = none := by
  unfold call_stock_scanner
  split <;> rfl

theorem call_scanner_non200_none (base : String) (st : Nat) (b : ScanBody)
    (h : st ≠ 200) : call_stock_scanner base (ScanResp.ok st b) = none := by
  unfold call_stock_scanner
  split
  · rfl
  · simp [h]

theorem get_ai_none_of_call_none {base c m : String} {resp : ScanResp}
    (h : call_stock_scanner base resp = none) :
    get_ai_analysis_for_stock base c m resp = none := by
  unfold get_ai_analysis_for_stock
  split
  · rfl
  · rw [h]

theorem get_ai_none_of_falsy {base c m : String} {resp : ScanResp} {v : PyVal}
    (h : call_stock_scanner base resp = some v) (hv : pyTruthy v = false) :
    get_ai_analysis_for_stock base c m resp = none := by
  unfold get_ai_analysis_for_stock
  split
  · rfl
  · rw [h]
    simp [hv]

theorem get_ai_none_of_falsy_body {base c m : String} {resp : ScanResp} {v : PyVal}
    (h : ∀ hb : base ≠ "", call_stock_scanner base resp = some v)
    (hv : pyTruthy v = false) : get_ai_analysis_for_stock base c m resp = none := by
  by_cases hb : base = ""
  · exact get_ai_none_of_call_none (by unfold call_stock_scanner; rw [if_pos hb])
  · exact get_ai_none_of_falsy (h hb) hv

/-- C8 counterexample: a 200 response with a non-empty body that is
unparseable as JSON (`resp.json()` raises) is not treated as tier failure —
`_call_stock_scanner` hands back `resp.text` and `get_ai_analysis_for_stock`
returns it as analysis content instead of a failure `None`. -/
theorem claim8_cex :
    get_ai_analysis_for_stock "http://localhost:8000" "600519" "A"
      (ScanResp.ok 200 (ScanBody.raw "hello")) = some (PyVal.pstr "hello") := rfl

/-- C8 (amended): connection failure, any other exception during the request,
and a non-200 response all yield `None` from `_call_stock_scanner`, and those
cases together with an empty or JSON-falsy payload (empty text, JSON `null`,
empty string, empty object) all yield the failure result `None` from
`get_ai_analysis_for_stock`; no transport exception reaches the caller (the
embedding of the `try/except` ladder is total).  A non-empty unparseable
payload, however, is returned as text (see the counterexample). -/
theorem claim8_failure_modes (base c m : String) :
    call_stock_scanner base ScanResp.connError = none ∧
    call_stock_scanner base ScanResp.exnError = none ∧
    (∀ st b, st ≠ 200 → call_stock_scanner base (ScanResp.ok st b) = none) ∧
    get_ai_analysis_for_stock base c m ScanResp.connError = none ∧
    get_ai_analysis_for_stock base c m ScanResp.exnError = none ∧
    (∀ st b, st ≠ 200 →
      get_ai_analysis_for_stock base c m (ScanResp.ok st b) = none) ∧
    get_ai_analysis_for_stock base c m (ScanResp.ok 200 (ScanBody.raw "")) = none ∧
    get_ai_analysis_for_stock base c m
      (ScanResp.ok 200 (ScanBody.json PyVal.pnone)) = none ∧
    get_ai_analysis_for_stock base c m
      (ScanResp.ok 200 (ScanBody.json (PyVal.pstr ""))) = none ∧
    get_ai_analysis_for_stock base c m
      (ScanResp.ok 200 (ScanBody.json (PyVal.pdict []))) = none := by
  refine ⟨call_scanner_conn_none base, call_scanner_exn_none base,
    fun st b h => call_scanner_non200_none base st b h,
    get_ai_none_of_call_none (call_scanner_conn_none base),
    get_ai_none_of_call_none (call_scanner_exn_none base),
    fun st b h => get_ai_none_of_call_none (call_scanner_non200_none base st b h),
    ?_, ?_, ?_, ?_⟩
  · exact @get_ai_none_of_falsy_body base c m _ (PyVal.pstr "")
      (fun hb => by unfold call_stock_scanner; simp [hb]) rfl
  · exact @get_ai_none_of_falsy_body base c m _ PyVal.pnone
      (fun hb => by unfold call_stock_scanner; simp [hb]) rfl
  · exact @get_ai_none_of_falsy_body base c m _ (PyVal.pstr "")
      (fun hb => by unfold call_stock_scanner; simp [hb]) rfl
  · exact @get_ai_none_of_falsy_body base c m _ (PyVal.pdict [])
      (fun hb => by unfold call_stock_scanner; simp [hb]) rfl

/-- C8 witness: the amended theorem instantiated at a concrete base, symbol,
market, 404 status and connection failure. -/
theorem claim8_witness :
    call_stock_scanner "http://localhost:8000" (ScanResp.ok 404 (ScanBody.raw "x")) =
      none ∧
    get_ai_analysis_for_stock "http://localhost:8000" "600519" "A"
      ScanResp.connError = none :=
  ⟨(claim8_failure_modes "http://localhost:8000" "600519" "A").2.2.1 404
      (ScanBody.raw "x") (by decide),
    (claim8_failure_modes "http://localhost:8000" "600519" "A").2.2.2.1⟩

/-! ## Claim C10 -/

/-- C10: `send_email` is total at its interface — it returns `true` exactly
when every step of the SMTP session (constructor, `starttls`, `login`,
`send_message`) succeeds, i.e. when the message is handed to the server, and
`false` under every exception of any step; no exception escapes (the
embedding of the `try`/three-`except` ladder is a total `Bool`-valued
function). -/
theorem claim10_send_email_total (env : SmtpEnv)
    (to_email subject html_content : String) :
    send_email env to_email subject html_content =
      (okB env.connect && okB env.starttls && okB env.login && okB env.send) := by
  rcases env with ⟨c, st, l, se⟩
  cases c <;> cases st <;> cases l <;> cases se <;> rfl

/-! ## Claim C1 -/

theorem watchlistParts_length (base : String) (scan : String → String → ScanResp)
    (zhipu : String → Option String) (wl : List WatchItem) :
    (watchlistParts base scan zhipu wl).length = min wl.length 8 := by
  unfold watchlistParts
  rw [List.length_map, List.length_take, Nat.min_comm]

/-- C1 counterexample: a batch of nine jobs yields only eight per-job entries
(the loop runs over `watchlist[:8]`), so "exactly N entries for every N"
fails at N = 9. -/
theorem claim1_cex :
    (watchlistParts "http://localhost:8000" scanDown zhipuDown wlNine).length ≠
      wlNine.length := by decide

/-- C1 (amended): for every batch of N watchlist jobs, the result contains
exactly `min N 8` per-job entries; the i-th entry is generated from the i-th
job, so each of the first eight jobs yields exactly one entry, in order, with
none dropped or duplicated among them — but jobs beyond the eighth are
dropped. -/
theorem claim1_entries_per_job (base : String) (scan : String → String → ScanResp)
    (zhipu : String → Option String) (wl : List WatchItem) :
    (watchlistParts base scan zhipu wl).length = min wl.length 8 ∧
    ∀ i : Nat, (watchlistParts base scan zhipu wl)[i]? =
      if i < 8 then (wl[i]?).map (genEntry base scan zhipu) else none := by
  refine ⟨watchlistParts_length base scan zhipu wl, fun i => ?_⟩
  by_cases hi : i < 8
  · rw [if_pos hi]
    unfold watchlistParts
    rw [List.getElem?_map, List.getElem?_take_of_lt hi]
  · rw [if_neg hi]
    apply List.getElem?_eq_none
    rw [watchlistParts_length]
    omega

/-! ## Claim C7 -/

theorem eq_empty_of_length_eq_zero {s : String} (h : s.length = 0) : s = "" := by
  cases s with
  | mk l =>
    have hl : l = [] := List.length_eq_zero.mp h
    rw [hl]

/-- with both the primary source and the zhipuai fallback failing, every loop
iteration appends one of the two static placeholder entries. -/
theorem genEntry_allfail {base : String} {scan : String → String → ScanResp}
    {zhipu : String → Option String}
    (hai : ∀ c m, truthyOV (get_ai_analysis_for_stock base c m (scan c m)) = false)
    (hz : ∀ p, truthyOS (zhipu p) = false) (s : WatchItem) :
    genEntry base scan zhipu s =
      (if s.code = "" then
        "<p><strong>" ++ pyOr s.name (pyOr s.code (pyOr s.raw_code "未知")) ++
          "</strong>：无代码，无法获取 AI 分析。</p>"
      else
        "<p><strong>" ++ pyOr s.name (pyOr s.code (pyOr s.raw_code "未知")) ++
          " (" ++ s.code ++ ")</strong>：无法获取 AI 分析，使用回退简述。</p>") := by
  unfold genEntry
  simp only [hai, hz, Bool.false_eq_true, if_false]

theorem placeholder1_ne_empty (n : String) :
    "<p><strong>" ++ n ++ "</strong>：无代码，无法获取 AI 分析。</p>" ≠ "" := by
  intro h
  have hlen := congrArg String.length h
  simp only [String.length_append] at hlen
  have h1 : String.length "<p><strong>" = 11 := rfl
  have h0 : String.length "" = 0 := rfl
  omega

theorem placeholder2_ne_empty (n c : String) :
    "<p><strong>" ++ n ++ " (" ++ c ++ ")</strong>：无法获取 AI 分析，使用回退简述。</p>" ≠ "" := by
  intro h
  have hlen := congrArg String.length h
  simp only [String.length_append] at hlen
  have h1 : String.length "<p><strong>" = 11 := rfl
  have h0 : String.length "" = 0 := rfl
  omega

theorem watchlistParts_ne_empty {base : String} {scan : String → String → ScanResp}
    {zhipu : String → Option String}
    (hai : ∀ c m, truthyOV (get_ai_analysis_for_stock base c m (scan c m)) = false)
    (hz : ∀ p, truthyOS (zhipu p) = false) (wl : List WatchItem) :
    ∀ part ∈ watchlistParts base scan zhipu wl, part ≠ "" := by
  intro part hp
  unfold watchlistParts at hp
  obtain ⟨s, hs, rfl⟩ := List.mem_map.mp hp
  rw [genEntry_allfail hai hz s]
  split
  · exact placeholder1_ne_empty _
  · exact placeholder2_ne_empty _ _

theorem pyJoin_ne_empty {l : List String} (hne : l ≠ [])
    (h : ∀ x ∈ l, x ≠ "") (sep : String) : pyJoin sep l ≠ "" := by
  cases l with
  | nil => exact absurd rfl hne
  | cons a t =>
    cases t with
    | nil =>
      simp only [pyJoin]
      exact h a (by simp)
    | cons b r =>
      simp only [pyJoin]
      intro hh
      have ha := h a (by simp)
      have ha0 : a.length ≠ 0 := fun hz => ha (eq_empty_of_length_eq_zero hz)
      have hlen := congrArg String.length hh
      simp only [String.length_append] at hlen
      have h0 : String.length "" = 0 := rfl
      omega

/-- C7 counterexample: even with every source failing for every job, a batch
of nine jobs aggregates to eight entries, not nine — the "one entry per job"
part of the claim fails beyond the `[:8]` window. -/
theorem claim7_cex :
    (watchlistParts "http://localhost:8000" scanDown zhipuDown wlNine).length = 8 ∧
    wlNine.length = 9 := by decide

/-- C7 (amended): when the primary source and the generative fallback both
fail for every job, the batch still produces one entry per job for the first
eight jobs (`min N 8` entries), each a non-empty static placeholder
narrative, and the returned report content is never the empty string. -/
theorem claim7_allfail_report (base : String) (scan : String → String → ScanResp)
    (zhipu : String → Option String) (wl : List WatchItem)
    (hai : ∀ c m, truthyOV (get_ai_analysis_for_stock base c m (scan c m)) = false)
    (hz : ∀ p, truthyOS (zhipu p) = false) :
    (watchlistParts base scan zhipu wl).length = min wl.length 8 ∧
    (∀ part ∈ watchlistParts base scan zhipu wl, part ≠ "") ∧
    generate_ai_content_for_watchlist base scan zhipu wl ≠ "" := by
  refine ⟨watchlistParts_length base scan zhipu wl,
    watchlistParts_ne_empty hai hz wl, ?_⟩
  unfold generate_ai_content_for_watchlist
  dsimp only
  split
  · decide
  · rename_i hne
    exact pyJoin_ne_empty hne (watchlistParts_ne_empty hai hz wl) "\n"

/-- C7 witness: both oracles fail everywhere on a concrete two-row batch; the
amended theorem's conclusions are instantiated there. -/
theorem claim7_witness :
    (watchlistParts "http://localhost:8000" scanDown zhipuDown wlTwo).length =
      min wlTwo.length 8 ∧
    generate_ai_content_for_watchlist "http://localhost:8000" scanDown zhipuDown
      wlTwo ≠ "" := by
  have hai : ∀ c m, truthyOV (get_ai_analysis_for_stock "http://localhost:8000"
      c m (scanDown c m)) = false := by
    intro c m
    by_cases hc : c = "" <;>
      simp [get_ai_analysis_for_stock, call_stock_scanner, scanDown, truthyOV, hc]
  have hz : ∀ p, truthyOS (zhipuDown p) = false := fun p => rfl
  exact ⟨(claim7_allfail_report _ scanDown zhipuDown wlTwo hai hz).1,
    (claim7_allfail_report _ scanDown zhipuDown wlTwo hai hz).2.2⟩

end EmailSystem
